import Mathlib

/-!
Verification development for the System_arch repository (backend services).

Shallow embedding of:
  * `src/backend/services/diagram_service.py`  (class `DiagramService`)
  * `src/backend/services/figma_service.py`    (class `FigmaService`)
  * `src/backend/services/pdf_service.py`      (method `generate_step_by_step_flow`)

Modelling conventions, used throughout:
  * Python `str` values are modelled as Lean `String` where they are only
    concatenated and compared, and as `List Char` where the claims reason about
    character counts and slicing (box/diagram rendering).
  * Python integers are unbounded; widths passed by callers are modelled as
    `Int`, derived non-negative quantities as `Nat`.  Every `Nat` subtraction
    below is guarded by an invariant making it exact (noted at each site).
  * A function that can raise an uncaught Python exception is modelled with
    `Option`/`Except`, the error value naming the Python exception.
  * Apostrophe (`0x27`) and newline (`0x0a`) characters inside Python string
    literals are spliced in via `Char.ofNat`.
-/

deriving instance DecidableEq for Except

namespace SystemArch

/-- The newline character `0x0a` (Python `"\n"` in string literals). -/
def nlChar : Char := Char.ofNat 10

/-- One-character newline string. -/
def nl : String := ⟨[nlChar]⟩

/-- The apostrophe character `0x27` (the single quote used in Python f-strings). -/
def sqChar : Char := Char.ofNat 39

/-- One-character apostrophe string. -/
def sq : String := ⟨[sqChar]⟩

/-- The characters removed by Python `str.strip()` with no argument:
space, tab, newline, carriage return, vertical tab (`0x0b`), form feed (`0x0c`).
(Exotic Unicode whitespace is not modelled; no claim depends on it.) -/
def pyIsSpace (c : Char) : Bool :=
  c == ' ' || c == '\t' || c == nlChar || c == '\r' ||
  c == Char.ofNat 11 || c == Char.ofNat 12

/-- Python truthiness of `s.strip()`: true iff `s` contains a character that
`str.strip()` does not remove, i.e. iff `s` is non-blank. -/
def pyStripTruthy (s : String) : Bool :=
  s.data.any fun c => !(pyIsSpace c)

/-! ## DiagramService — `src/backend/services/diagram_service.py` -/

/-- The effective width computed by the first lines of
`DiagramService.create_ascii_box` (lines 151-155):
`if width is None: width = len(text) + 4` followed by
`width = max(width, len(text) + 4)`. -/
def eff_width (text : List Char) (width? : Option Int) : Nat :=
  (max (width?.getD ((text.length : Int) + 4)) ((text.length : Int) + 4)).toNat

/-- `DiagramService.create_ascii_box` (diagram_service.py lines 149-166).
Returns `[top_line, middle_line, bottom_line]`.  The effective width is
`eff_width text width?`, which is at least `len(text) + 4`, so every `Nat`
subtraction below is exact (matches Python's signed arithmetic). -/
def create_ascii_box (text : List Char) (width? : Option Int) : List (List Char) :=
  let width : Nat := eff_width text width?
  -- padding = (width - 2 - len(text)) // 2
  let padding : Nat := (width - 2 - text.length) / 2
  -- padded_text = " " * padding + text + " " * (width - 2 - len(text) - padding)
  let padded_text : List Char :=
    List.replicate padding ' ' ++ text ++
      List.replicate (width - 2 - text.length - padding) ' '
  -- top_line = "+" + "-" * (width - 2) + "+"
  let top_line : List Char := '+' :: (List.replicate (width - 2) '-' ++ ['+'])
  -- middle_line = "|" + padded_text + "|"
  let middle_line : List Char := '|' :: (padded_text ++ ['|'])
  -- bottom_line = "+" + "-" * (width - 2) + "+"
  let bottom_line : List Char := '+' :: (List.replicate (width - 2) '-' ++ ['+'])
  [top_line, middle_line, bottom_line]

/-- `DiagramService.create_vertical_arrow` (diagram_service.py lines 168-172).
`center = (width - 1) // 2`; the two lines are `center` spaces followed by a
bar, and `center` spaces followed by `v`.  (For `width = 0` Python computes
`center = -1` and `" " * -1 = ""`, which coincides with `Nat` saturation.) -/
def create_vertical_arrow (width : Nat) : List (List Char) :=
  let center : Nat := (width - 1) / 2
  let spaces : List Char := List.replicate center ' '
  [spaces ++ ['|'], spaces ++ ['v']]

/-- The width computed by `DiagramService.create_box_diagram` (lines 187-188)
for the non-empty component list `c :: cs`:
`max_width = max(len(comp) + 4 for comp in components)` followed by
`max_width = max(max_width, 20)`. -/
def box_diagram_width (c : List Char) (cs : List (List Char)) : Nat :=
  max ((cs.map fun comp => comp.length + 4).foldl max (c.length + 4)) 20

/-- The line list built by the loop of `DiagramService.create_box_diagram`
(lines 184-198): for each `(i, component)` of `enumerate(components)`, the
three box lines at the uniform width, then — except after the last
component — the two arrow lines.  On an empty component list the Python
`max()` call on line 187 raises `ValueError` (`max() arg is an empty
sequence`); that is modelled as `none`. -/
def create_box_diagram_lines : List (List Char) → Option (List (List Char))
  | [] => none
  | c :: cs =>
    let max_width := box_diagram_width c cs
    let n := (c :: cs).length
    some ((List.enumFrom 0 (c :: cs)).flatMap fun p =>
      create_ascii_box p.2 (some (max_width : Int)) ++
        (if p.1 < n - 1 then create_vertical_arrow max_width else []))

/-- `DiagramService.create_box_diagram` (diagram_service.py lines 182-200):
the lines joined with `"\n".join(diagram_lines)`. -/
def create_box_diagram (components : List (List Char)) : Option (List Char) :=
  (create_box_diagram_lines components).map fun diagram_lines =>
    [nlChar].intercalate diagram_lines

/-- Recursive restatement of the `create_box_diagram` loop (used to reason
about it by induction): three box lines per component, the two arrow lines
between consecutive components only. -/
def diagram_rows (W : Nat) : List (List Char) → List (List Char)
  | [] => []
  | [c] => create_ascii_box c (some (W : Int))
  | c :: c2 :: cs =>
    create_ascii_box c (some (W : Int)) ++ create_vertical_arrow W ++
      diagram_rows W (c2 :: cs)

/-- The expected line lengths of `diagram_rows W l`: `W` for the three box
lines of each component, `(W - 1) / 2 + 1` for the two arrow lines between
consecutive components. -/
def len_pattern (W : Nat) : List (List Char) → List Nat
  | [] => []
  | [_] => [W, W, W]
  | _ :: c2 :: cs =>
    W :: W :: W :: ((W - 1) / 2 + 1) :: ((W - 1) / 2 + 1) ::
      len_pattern W (c2 :: cs)

/-! ### Component extraction — `DiagramService.extract_components_from_figma`

The figma payload and AI-analysis payload are Python dicts of which the
function reads a fixed set of keys (lines 67-77); the two structures below
record exactly those reads, with `dict.get` defaults already applied:

  * `FigmaData.name` is `figma_data.get('name', '')`;
  * `FigmaData.document_children` is `some` of the child list when both
    `'document' in figma_data` and `'children' in figma_data['document']`
    hold, otherwise `none`;
  * each child is read via `child.get('name', '')` and `child.get('type')`;
  * `AIAnalysis` records `application_type` (`get` default `''`),
    the `technical_stack_recommendations` lists (`frontend`/`backend`,
    an absent key behaving like `[]` under the code's truthiness tests),
    the optional `database` string (`get` default `None`) and
    `key_features` (`get` default `[]`). -/

structure PageChild where
  name : String
  type : Option String

structure FigmaData where
  name : String
  document_children : Option (List PageChild)

structure AIAnalysis where
  application_type : String
  frontend : List String
  backend : List String
  database : Option String
  key_features : List String

/-- Lines 69-71: the names of the document children whose `type` is `CANVAS`. -/
def pages_of (children : List PageChild) : List String :=
  (children.filter fun child => child.type == some "CANVAS").map PageChild.name

/-- The list built by the fallback appends of
`DiagramService.extract_components_from_figma` (lines 116-138), in source
order: the `"{app_type} User"` entry (line 117, Python truthiness — a blank
but non-empty `app_type` still passes), the first two pages filtered to the
non-blank ones (lines 121-124), the `"{frontend[0]} Layer"` and
`"{backend[0]} API"` entries when those lists are non-empty (lines 127-131),
the database name when non-blank (lines 133-134), and the
`"{key_features[0]} Module"` entry when the feature list is non-empty and its
head is non-blank (lines 137-138).  Each clause appends one element, so this
concatenation is non-empty iff at least one append executes. -/
def fallback_components (app_type : String) (pages : List String)
    (frontend backend : List String) (database : Option String)
    (features : List String) : List String :=
  (if app_type ≠ "" then [app_type ++ " User"] else []) ++
  (((pages.take 2).filter fun page => pyStripTruthy page).map
    fun page => page ++ " Interface") ++
  (match frontend with
   | [] => []
   | f :: _ => [f ++ " Layer"]) ++
  (match backend with
   | [] => []
   | b :: _ => [b ++ " API"]) ++
  (match database with
   | some db => if pyStripTruthy db then [db] else []
   | none => []) ++
  (match features with
   | [] => []
   | f :: _ => if pyStripTruthy f then [f ++ " Module"] else [])

/-- Lines 140-147 of `extract_components_from_figma`: starting from the
component list accumulated so far (`init ++ parts`), replace an empty list by
the minimal structure (`"{project_name} System"`, or `"Application"` when the
project name is empty), then truncate to 6 entries. -/
def finish_components (project_name : String) (init parts : List String) :
    List String :=
  let components := init ++ parts
  (if components = [] then
     (if project_name ≠ "" then [project_name ++ " System"] else ["Application"])
   else components).take 6

/-- The value `json.loads(response)` produced inside the LLM branch of
`extract_components_from_figma` (line 108).  `json.loads` is the Python
standard library, external to this repository, so its result is modelled
abstractly: a JSON array becomes `pylist` (the code only forwards its
elements), and a JSON object becomes `pydict` carrying its Python truthiness
(non-list results of other JSON types behave like `pydict` with respect to
the attribute error modelled below, except top-level strings, which no claim
exercises). -/
inductive PyVal where
  | pylist (items : List String)
  | pydict (nonEmpty : Bool)
deriving DecidableEq

/-- Outcome of the language-model branch (lines 80-114) as observed at the
`json.loads` seam:

  * `unavailable` — `self.llm_service` is `None`, the branch is skipped;
  * `raised` — `self.llm_service._generate_completion(prompt)` raised; the
    exception is caught and logged by `except Exception` (lines 113-114);
  * `parseFailed` — `json.loads` on the cleaned response raised; swallowed by
    the bare `except: pass` (lines 111-112);
  * `parsed v` — `json.loads` returned `v` and `components` was rebound to it
    (line 108). -/
inductive LLMOutcome where
  | unavailable
  | raised
  | parseFailed
  | parsed (v : PyVal)
deriving DecidableEq

/-- `DiagramService.extract_components_from_figma` (diagram_service.py lines
62-147).  `Except.error` models an uncaught Python exception.  The branch
logic after the `json.loads` seam:

  * when the parse produced a list of at least 3 items, line 110 returns the
    first 6 of them verbatim;
  * when it produced a shorter list, `components` keeps that list and the
    fallback appends of lines 117-138 extend it;
  * when it produced a non-list (modelled as a dict), the first fallback
    append (`components.append(...)`) raises `AttributeError`; if no append
    fires, line 141 tests the dict's truthiness: an empty dict is replaced by
    the minimal structure, a non-empty one reaches `components[:6]` on line
    147, which raises `TypeError` on a dict. -/
def extract_components_from_figma (llm : LLMOutcome) (figma : FigmaData)
    (ai : AIAnalysis) : Except String (List String) :=
  let project_name := figma.name
  let pages := match figma.document_children with
    | some children => pages_of children
    | none => []
  let parts := fallback_components ai.application_type pages ai.frontend
    ai.backend ai.database ai.key_features
  match llm with
  | .unavailable => .ok (finish_components project_name [] parts)
  | .raised => .ok (finish_components project_name [] parts)
  | .parseFailed => .ok (finish_components project_name [] parts)
  | .parsed (.pylist items) =>
    if 3 ≤ items.length then .ok (items.take 6)
    else .ok (finish_components project_name items parts)
  | .parsed (.pydict nonEmpty) =>
    if parts ≠ [] then
      .error "AttributeError: dict object has no attribute append"
    else if nonEmpty then
      .error "TypeError: unhashable type: slice"
    else
      .ok ((if project_name ≠ "" then [project_name ++ " System"]
            else ["Application"]).take 6)

/-! ## FigmaService — `src/backend/services/figma_service.py` -/

/-- A Figma design-tree node, as read by `FigmaService`.  The five fields
record exactly the keys the service touches:

  * `type` — `node.get('type')`;
  * `style` — `some ff` when `'style' in node`, with `ff` the value of
    `node['style'].get('fontFamily')` (the only key read from the style map);
  * `characters` — `some s` when `'characters' in node`;
  * `name` — `some s` when `'name' in node` (read by `get_project_structure`
    via direct indexing, which raises `KeyError` when absent);
  * `children` — the child list; `'children' not in node` is modelled as `[]`
    (the code only iterates the list, so absence and emptiness coincide). -/
inductive Node where
  | mk (type : Option String) (style : Option (Option String))
       (characters : Option String) (name : Option String)
       (children : List Node)

def Node.type : Node → Option String
  | .mk t _ _ _ _ => t

def Node.style : Node → Option (Option String)
  | .mk _ st _ _ _ => st

def Node.characters : Node → Option String
  | .mk _ _ ch _ _ => ch

def Node.name : Node → Option String
  | .mk _ _ _ nm _ => nm

def Node.children : Node → List Node
  | .mk _ _ _ _ cs => cs

mutual

/-- `FigmaService.extract_fonts` (figma_service.py lines 166-190) with the
accumulator set explicit: recurse into the children first, then — when
`node.get('type') == 'TEXT' and 'style' in node` and
`node['style'].get('fontFamily')` is truthy (present and non-empty) — add the
font family to the set. -/
def extract_fonts : Node → Finset String → Finset String
  | .mk t st _ _ cs, fonts =>
    if t = some "TEXT" then
      match st with
      | some (some f) =>
        if f ≠ "" then insert f (extract_fonts_list cs fonts)
        else extract_fonts_list cs fonts
      | some none => extract_fonts_list cs fonts
      | none => extract_fonts_list cs fonts
    else extract_fonts_list cs fonts

/-- The `for child in node['children']` loop of `extract_fonts`. -/
def extract_fonts_list : List Node → Finset String → Finset String
  | [], fonts => fonts
  | c :: rest, fonts => extract_fonts_list rest (extract_fonts c fonts)

end

mutual

/-- `FigmaService.extract_texts` (figma_service.py lines 192-214) with the
accumulator list explicit: recurse into the children first, then — when
`node.get('type') == 'TEXT' and 'characters' in node` — append
`node['characters']` (presence is the only test: an empty string is
appended). -/
def extract_texts : Node → List String → List String
  | .mk t _ ch _ cs, texts =>
    if t = some "TEXT" then
      match ch with
      | some s => extract_texts_list cs texts ++ [s]
      | none => extract_texts_list cs texts
    else extract_texts_list cs texts

/-- The `for child in node['children']` loop of `extract_texts`. -/
def extract_texts_list : List Node → List String → List String
  | [], texts => texts
  | c :: rest, texts => extract_texts_list rest (extract_texts c texts)

end

mutual

/-- Structural characterisation used to compare `extract_texts` with the
specification: the post-order sequence of `characters` values of the nodes
whose `type` is `TEXT` and which carry the `characters` field (even when its
value is the empty string). -/
def texts_of : Node → List String
  | .mk t _ ch _ cs =>
    texts_of_list cs ++
      (if t = some "TEXT" then
        match ch with
        | some s => [s]
        | none => []
      else [])

/-- `texts_of` over a child list, in order. -/
def texts_of_list : List Node → List String
  | [] => []
  | c :: rest => texts_of c ++ texts_of_list rest

end

mutual

/-- Structural characterisation used to compare `extract_fonts` with the
specification: some node of the tree has `type = TEXT`, carries a style map,
and that style map's `fontFamily` equals `f` and is non-empty. -/
def has_font : Node → String → Bool
  | .mk t st _ _ cs, f =>
    has_font_list cs f ||
      (if t = some "TEXT" then
        match st with
        | some (some g) => decide (g = f ∧ g ≠ "")
        | some none => false
        | none => false
      else false)

/-- `has_font` over a child list. -/
def has_font_list : List Node → String → Bool
  | [], _ => false
  | c :: rest, f => has_font c f || has_font_list rest f

end

mutual

/-- Some node of the tree has `type = TEXT`. -/
def has_text_node : Node → Bool
  | .mk t _ _ _ cs => t == some "TEXT" || has_text_node_list cs

/-- `has_text_node` over a child list. -/
def has_text_node_list : List Node → Bool
  | [] => false
  | c :: rest => has_text_node c || has_text_node_list rest

end

/-- `FigmaService.extract_components` (figma_service.py lines 216-227).
The input dictionary is modelled as an association list pairing each id with
the value of the entry's `name` field when present (`details['name']` is the
only read).  The comprehension
`{comp_id: details['name'] for comp_id, details in components_dict.items()}`
raises `KeyError` as soon as an entry lacks `name`, producing no partial
dictionary; `Except.error` models that. -/
def extract_components : List (String × Option String) →
    Except String (List (String × String))
  | [] => .ok []
  | entry :: rest =>
    match entry.2 with
    | some n =>
      match extract_components rest with
      | .ok m => .ok ((entry.1, n) :: m)
      | .error e => .error e
    | none => .error "KeyError: name"

/-- `FigmaService.extract_styles` (figma_service.py lines 229-240): same
shape as `extract_components`, over the styles dictionary. -/
def extract_styles : List (String × Option String) →
    Except String (List (String × String))
  | [] => .ok []
  | entry :: rest =>
    match entry.2 with
    | some n =>
      match extract_styles rest with
      | .ok m => .ok ((entry.1, n) :: m)
      | .error e => .error e
    | none => .error "KeyError: name"

mutual

/-- `FigmaService.get_project_structure` (figma_service.py lines 242-260),
with the node threaded through to witness the absence of mutation: the
returned node is rebuilt from exactly the reads the traversal performs.
Line 254 indexes `node['name']` and `node['type']` directly, so a node
missing either key raises `KeyError` (`Except.error`).  Each child can in
turn raise; children after the raising one are left untraversed. -/
def get_project_structure_st : Node → Nat → Except String String × Node
  | .mk t st ch nm cs, level =>
    match nm, t with
    | some nameVal, some typeVal =>
      -- struct = '  ' * level + f"{node['name']} ({node['type']})" + "\n"
      let line : String :=
        ⟨List.replicate (2 * level) ' '⟩ ++ nameVal ++ " (" ++ typeVal ++ ")" ++ nl
      match get_project_structure_list_st cs (level + 1) with
      | (.ok rest, cs1) => (.ok (line ++ rest), .mk t st ch nm cs1)
      | (.error e, cs1) => (.error e, .mk t st ch nm cs1)
    | _, _ => (.error "KeyError: name or type", .mk t st ch nm cs)

/-- The `for child in node['children']` loop of `get_project_structure`,
concatenating the children's renderings and stopping at the first error. -/
def get_project_structure_list_st :
    List Node → Nat → Except String String × List Node
  | [], _ => (.ok "", [])
  | c :: rest, level =>
    match get_project_structure_st c level with
    | (.ok s, c1) =>
      match get_project_structure_list_st rest level with
      | (.ok s2, rest1) => (.ok (s ++ s2), c1 :: rest1)
      | (.error e, rest1) => (.error e, c1 :: rest1)
    | (.error e, c1) => (.error e, c1 :: rest)

end

mutual

/-- `extract_fonts` with the node threaded through (for the frame claim):
the returned node is rebuilt from the traversal's reads. -/
def extract_fonts_st : Node → Finset String → Finset String × Node
  | .mk t st ch nm cs, fonts =>
    match extract_fonts_list_st cs fonts with
    | (fonts1, cs1) =>
      (if t = some "TEXT" then
        match st with
        | some (some f) => if f ≠ "" then insert f fonts1 else fonts1
        | some none => fonts1
        | none => fonts1
      else fonts1, .mk t st ch nm cs1)

/-- The children loop of `extract_fonts_st`. -/
def extract_fonts_list_st : List Node → Finset String → Finset String × List Node
  | [], fonts => (fonts, [])
  | c :: rest, fonts =>
    match extract_fonts_st c fonts with
    | (fonts1, c1) =>
      match extract_fonts_list_st rest fonts1 with
      | (fonts2, rest1) => (fonts2, c1 :: rest1)

end

mutual

/-- `extract_texts` with the node threaded through (for the frame claim). -/
def extract_texts_st : Node → List String → List String × Node
  | .mk t st ch nm cs, texts =>
    match extract_texts_list_st cs texts with
    | (texts1, cs1) =>
      (if t = some "TEXT" then
        match ch with
        | some s => texts1 ++ [s]
        | none => texts1
      else texts1, .mk t st ch nm cs1)

/-- The children loop of `extract_texts_st`. -/
def extract_texts_list_st : List Node → List String → List String × List Node
  | [], texts => (texts, [])
  | c :: rest, texts =>
    match extract_texts_st c texts with
    | (texts1, c1) =>
      match extract_texts_list_st rest texts1 with
      | (texts2, rest1) => (texts2, c1 :: rest1)

end

/-! ## PDFService — `src/backend/services/pdf_service.py` -/

/-- The two fixed setup steps of `generate_step_by_step_flow`
(pdf_service.py lines 36-39). -/
def setup_steps : List String := [
  "Step 1: Set up the development environment - Install Python, required libraries (Streamlit, FastAPI, SQLAlchemy, etc.).",
  "Step 2: Initialize the project structure - Create directories for frontend (Streamlit app) and backend (FastAPI server)."]

/-- The per-feature frontend step of `generate_step_by_step_flow`
(pdf_service.py line 42), for loop counter `i` and feature name `feature`;
the apostrophes of the f-string are spliced in as `sq`. -/
def step_main (i : Nat) (feature : String) : String :=
  "Step " ++ toString i ++ ": Implement the " ++ sq ++ feature ++ sq ++
    " feature in the frontend using Streamlit components (e.g., buttons, forms based on Figma design)."

/-- The per-feature backend sub-step of `generate_step_by_step_flow`
(pdf_service.py line 43). -/
def step_sub (i : Nat) (feature : String) : String :=
  "Step " ++ toString i ++ ".1: Add corresponding backend endpoints in FastAPI for " ++
    sq ++ feature ++ sq ++ " (e.g., API routes for data handling)."

/-- One iteration of the `for i, feature in enumerate(features, start=3)`
loop (pdf_service.py lines 41-43): the two appended lines. -/
def feature_steps (p : Nat × String) : List String :=
  [step_main p.1 p.2, step_sub p.1 p.2]

/-- The four fixed closing steps of `generate_step_by_step_flow`
(pdf_service.py lines 45-50); `N`, `N+1`, `N+2`, `N+3` are the literal
characters of the source strings, not computed numbers. -/
def closing_steps : List String := [
  "Step N: Integrate frontend with backend via API calls.",
  "Step N+1: Set up database (SQLite) and connect to backend.",
  "Step N+2: Test the application end-to-end.",
  "Step N+3: Deploy the application (e.g., to Heroku or Vercel)."]

/-- `PDFService.generate_step_by_step_flow` (pdf_service.py lines 26-52):
two fixed setup steps, two lines per feature numbered from 3 by
`enumerate(features, start=3)`, then the four fixed closing steps. -/
def generate_step_by_step_flow (features : List String) : List String :=
  setup_steps ++ (List.enumFrom 3 features).flatMap feature_steps ++ closing_steps

/-! ## Helper lemmas -/

theorem eff_width_ge (text : List Char) (width? : Option Int) :
    text.length + 4 ≤ eff_width text width? := by
  unfold eff_width
  rcases le_total (width?.getD ((text.length : Int) + 4)) ((text.length : Int) + 4)
    with h | h
  · rw [max_eq_right h]; omega
  · rw [max_eq_left h]; omega

theorem eff_width_of_le {text : List Char} {W : Nat} (h : text.length + 4 ≤ W) :
    eff_width text (some (W : Int)) = W := by
  unfold eff_width
  simp only [Option.getD_some]
  rw [max_eq_left (by exact_mod_cast h)]
  omega

theorem create_ascii_box_length_eq (text : List Char) (width? : Option Int) :
    ∀ l ∈ create_ascii_box text width?, l.length = eff_width text width? := by
  have hw := eff_width_ge text width?
  intro l hl
  simp only [create_ascii_box, List.mem_cons, List.not_mem_nil, or_false] at hl
  rcases hl with rfl | rfl | rfl <;>
    simp [List.length_append, List.length_replicate] <;> omega

theorem create_vertical_arrow_length_eq (W : Nat) :
    ∀ l ∈ create_vertical_arrow W, l.length = (W - 1) / 2 + 1 := by
  intro l hl
  simp only [create_vertical_arrow, List.mem_cons, List.not_mem_nil, or_false] at hl
  rcases hl with rfl | rfl <;> simp [List.length_append, List.length_replicate]

/-! ## Claim C3 -/

/-- Claim C3 (confirmed): `create_ascii_box` always returns exactly 3 lines;
the effective width is `len(text) + 4` when no width is given and otherwise
the given width floored at that minimum; the border lines are a plus sign,
`width - 2` dashes and a plus sign; the middle line centres the text with
`pad = (width - 2 - len(text)) // 2` spaces on the left and the remainder on
the right (odd leftover space goes right); all three lines have length equal
to the effective width.  In particular `create_ascii_box("OK", width=10)`
returns exactly `["+--------+", "|   OK   |", "+--------+"]`. -/
theorem C3_create_ascii_box :
    (∀ (text : List Char) (width? : Option Int),
      create_ascii_box text width? =
        ['+' :: (List.replicate (eff_width text width? - 2) '-' ++ ['+']),
         '|' :: (List.replicate ((eff_width text width? - 2 - text.length) / 2) ' ' ++
           text ++
           List.replicate (eff_width text width? - 2 - text.length -
             (eff_width text width? - 2 - text.length) / 2) ' ' ++ ['|']),
         '+' :: (List.replicate (eff_width text width? - 2) '-' ++ ['+'])] ∧
      (create_ascii_box text width?).length = 3 ∧
      (width? = none → eff_width text width? = text.length + 4) ∧
      (∀ z : Int, width? = some z →
        text.length + 4 ≤ eff_width text width? ∧
        ((text.length : Int) + 4 ≤ z → (eff_width text width? : Int) = z)) ∧
      (∀ l ∈ create_ascii_box text width?, l.length = eff_width text width?)) ∧
    create_ascii_box "OK".data (some 10) =
      ['+' :: (List.replicate 8 '-' ++ ['+']),
       ['|', ' ', ' ', ' ', 'O', 'K', ' ', ' ', ' ', '|'],
       '+' :: (List.replicate 8 '-' ++ ['+'])] := by
  refine ⟨fun text width? => ⟨?_, rfl, ?_, ?_, create_ascii_box_length_eq text width?⟩,
    by decide⟩
  · simp [create_ascii_box, List.append_assoc]
  · rintro rfl
    unfold eff_width
    simp only [Option.getD_none, max_self]
    omega
  · rintro z rfl
    refine ⟨eff_width_ge text (some z), fun hz => ?_⟩
    unfold eff_width
    simp only [Option.getD_some]
    rw [max_eq_left hz]
    omega

/-- Witness for C3: the caller-supplied-width characterisation evaluated at
`text = "OK"`, `width = 10`. -/
theorem C3_witness :
    "OK".data.length + 4 ≤ eff_width "OK".data (some 10) ∧
    (eff_width "OK".data (some 10) : Int) = 10 := by
  have h := (C3_create_ascii_box.1 "OK".data (some 10)).2.2.2.1 10 rfl
  exact ⟨h.1, h.2 (by decide)⟩

/-! ## Claim C8 -/

/-- Claim C8 (corrected): `create_box_diagram` does handle the single-label
case with exactly one box (three lines) and zero arrows; but on an empty
label list it does not reject gracefully or fall back to a minimal one-box
diagram: the `max()` call over the empty generator on line 187 raises an
uncaught `ValueError` (`max() arg is an empty sequence`), modelled here as
`none`. -/
theorem C8_single_label_and_empty_list :
    (∀ label : List Char,
      create_box_diagram_lines [label] =
        some (create_ascii_box label (some (box_diagram_width label [] : Int))) ∧
      create_box_diagram [label] =
        some ([nlChar].intercalate
          (create_ascii_box label (some (box_diagram_width label [] : Int))))) ∧
    create_box_diagram ([] : List (List Char)) = none := by
  refine ⟨fun label => ?_, rfl⟩
  have h : create_box_diagram_lines [label] =
      some (create_ascii_box label (some (box_diagram_width label [] : Int))) := by
    simp [create_box_diagram_lines]
  exact ⟨h, by rw [create_box_diagram, h]; rfl⟩

/-- Counterexample for C8 as stated: on the empty label list the code
produces no diagram at all (the `ValueError` raised by `max()` propagates),
rather than a minimal one-box fallback. -/
theorem C8_counterexample : create_box_diagram ([] : List (List Char)) = none := rfl

/-! ## Claim C7 -/

/-- Claim C7 (confirmed): `extract_components` and `extract_styles` map each
entry id to the entry's `name` field; when every entry carries `name` the
full id-to-name mapping is returned, and when some entry lacks `name` a
`KeyError` propagates and no partial mapping is produced. -/
theorem C7_extract_components_styles :
    (∀ m : List (String × String),
      extract_components (m.map fun q => (q.1, some q.2)) = .ok m ∧
      extract_styles (m.map fun q => (q.1, some q.2)) = .ok m) ∧
    (∀ d : List (String × Option String),
      (∃ p ∈ d, p.2 = none) →
      extract_components d = .error "KeyError: name" ∧
      extract_styles d = .error "KeyError: name") := by
  constructor
  · intro m
    induction m with
    | nil => exact ⟨rfl, rfl⟩
    | cons q m ih =>
      simp only [extract_components, extract_styles, List.map_cons] at ih ⊢
      rw [ih.1, ih.2]
      exact ⟨rfl, rfl⟩
  · intro d hd
    induction d with
    | nil => simp at hd
    | cons q d ih =>
      rcases hd with ⟨p, hp, hnone⟩
      rcases List.mem_cons.mp hp with rfl | hmem
      · constructor <;> simp [extract_components, extract_styles, hnone]
      · rcases hq : q.2 with _ | n
        · constructor <;> simp [extract_components, extract_styles, hq]
        · have ih2 := ih ⟨p, hmem, hnone⟩
          constructor <;> simp [extract_components, extract_styles, hq] <;>
            [rw [ih2.1]; rw [ih2.2]]

/-- Witness for C7: a one-entry dictionary with `name` maps to its name; a
one-entry dictionary missing `name` raises `KeyError`. -/
theorem C7_witness :
    extract_components ([("1:2", "Button")].map fun q => (q.1, some q.2)) =
      .ok [("1:2", "Button")] ∧
    extract_styles [("s1", (none : Option String))] = .error "KeyError: name" := by
  refine ⟨(C7_extract_components_styles.1 [("1:2", "Button")]).1, ?_⟩
  exact (C7_extract_components_styles.2 [("s1", none)]
    ⟨("s1", none), by simp, rfl⟩).2

/-! ## Claim C6 -/

theorem feature_flat_length (fs : List String) (s : Nat) :
    ((List.enumFrom s fs).flatMap feature_steps).length = 2 * fs.length := by
  induction fs generalizing s with
  | nil => rfl
  | cons f fs ih =>
    simp only [List.enumFrom, List.flatMap_cons, List.length_append,
      List.length_cons, ih (s + 1), feature_steps]
    simp
    omega

theorem feature_flat_get (fs : List String) (s k : Nat) (h : k < fs.length) :
    ((List.enumFrom s fs).flatMap feature_steps)[2 * k]? =
      some (step_main (s + k) (fs.get ⟨k, h⟩)) ∧
    ((List.enumFrom s fs).flatMap feature_steps)[2 * k + 1]? =
      some (step_sub (s + k) (fs.get ⟨k, h⟩)) := by
  induction fs generalizing s k with
  | nil => exact absurd h (by simp)
  | cons f fs ih =>
    cases k with
    | zero => simp [List.enumFrom, List.flatMap_cons, feature_steps]
    | succ k =>
      have hk : k < fs.length := by simpa using Nat.lt_of_succ_lt_succ h
      have hrec := ih (s + 1) k hk
      have e1 : 2 * (k + 1) = 2 * k + 1 + 1 := by ring
      rw [e1]
      simp only [List.enumFrom, List.flatMap_cons, feature_steps,
        List.cons_append, List.nil_append, List.getElem?_cons_succ, List.get_cons_succ]
      rw [show s + 1 + k = s + (k + 1) by ring] at hrec
      exact hrec

/-- Claim C6 (confirmed): `generate_step_by_step_flow` returns, in order, the
two fixed setup steps, then for the feature at 0-based position `k` one
`step_main (k+3)` line and one `step_sub (k+3)` line (the numbering follows
`enumerate(features, start=3)`), then the four fixed closing steps whose
numbering is the literal text `N`, `N+1`, `N+2`, `N+3`; the result has
exactly `2 + 2*len(features) + 4` entries. -/
theorem C6_generate_step_by_step_flow (features : List String) :
    (generate_step_by_step_flow features).length =
      2 + 2 * features.length + 4 ∧
    (generate_step_by_step_flow features).take 2 = setup_steps ∧
    (∀ k, (h : k < features.length) →
      (generate_step_by_step_flow features)[2 + 2 * k]? =
        some (step_main (k + 3) (features.get ⟨k, h⟩)) ∧
      (generate_step_by_step_flow features)[2 + 2 * k + 1]? =
        some (step_sub (k + 3) (features.get ⟨k, h⟩))) ∧
    (generate_step_by_step_flow features).drop (2 + 2 * features.length) =
      closing_steps := by
  have hB := feature_flat_length features 3
  have hAB : (setup_steps ++ (List.enumFrom 3 features).flatMap feature_steps).length =
      2 + 2 * features.length := by
    simp [List.length_append, hB, setup_steps]
    omega
  refine ⟨?_, ?_, ?_, ?_⟩
  · simp [generate_step_by_step_flow, List.length_append, hB, setup_steps,
      closing_steps]
    omega
  · rw [generate_step_by_step_flow, List.append_assoc,
      show (2 : Nat) = setup_steps.length from rfl, List.take_left]
  · intro k h
    have hidx : 2 + 2 * k < (setup_steps ++
        (List.enumFrom 3 features).flatMap feature_steps).length := by
      rw [hAB]; omega
    have hidx1 : 2 + 2 * k + 1 < (setup_steps ++
        (List.enumFrom 3 features).flatMap feature_steps).length := by
      rw [hAB]
      simp only [List.length_append, hB] at hAB ⊢
      omega
    have hget := feature_flat_get features 3 k h
    have hA2 : ¬ (2 + 2 * k < setup_steps.length) := by simp [setup_steps]
    have hA3 : ¬ (2 + 2 * k + 1 < setup_steps.length) := by
      simp [setup_steps]
      omega
    constructor
    · rw [generate_step_by_step_flow, List.getElem?_append, if_pos hidx,
        List.getElem?_append, if_neg hA2]
      simpa [setup_steps, show 2 + 2 * k - 2 = 2 * k by omega,
        Nat.add_comm 3 k] using hget.1
    · rw [generate_step_by_step_flow, List.getElem?_append, if_pos hidx1,
        List.getElem?_append, if_neg hA3]
      simpa [setup_steps, show 2 + 2 * k + 1 - 2 = 2 * k + 1 by omega,
        Nat.add_comm 3 k] using hget.2
  · rw [generate_step_by_step_flow, show 2 + 2 * features.length =
      (setup_steps ++ (List.enumFrom 3 features).flatMap feature_steps).length
      from hAB.symm, List.drop_left]

/-- Witness for C6: evaluated at `features = ["Login"]`, the lines at
positions 2 and 3 are the `Step 3:` and `Step 3.1:` lines for `Login`. -/
theorem C6_witness :
    (generate_step_by_step_flow ["Login"])[2]? = some (step_main 3 "Login") ∧
    (generate_step_by_step_flow ["Login"])[3]? = some (step_sub 3 "Login") := by
  have h := (C6_generate_step_by_step_flow ["Login"]).2.2.1 0 (by decide)
  simpa using h

/-! ## Tree-extraction lemmas -/

mutual

theorem extract_texts_eq_acc : ∀ (n : Node) (acc : List String),
    extract_texts n acc = acc ++ texts_of n
  | .mk t st ch nm cs, acc => by
    have hcs := extract_texts_list_eq_acc cs acc
    by_cases hT : t = some "TEXT"
    · cases ch with
      | some s => simp [extract_texts, texts_of, hT, hcs, List.append_assoc]
      | none => simp [extract_texts, texts_of, hT, hcs]
    · simp [extract_texts, texts_of, hT, hcs]

theorem extract_texts_list_eq_acc : ∀ (cs : List Node) (acc : List String),
    extract_texts_list cs acc = acc ++ texts_of_list cs
  | [], acc => by simp [extract_texts_list, texts_of_list]
  | c :: rest, acc => by
    have h1 := extract_texts_eq_acc c acc
    have h2 := extract_texts_list_eq_acc rest (extract_texts c acc)
    calc extract_texts_list (c :: rest) acc
        = extract_texts_list rest (extract_texts c acc) := by
          rw [extract_texts_list]
      _ = extract_texts c acc ++ texts_of_list rest := h2
      _ = (acc ++ texts_of c) ++ texts_of_list rest := by rw [h1]
      _ = acc ++ (texts_of c ++ texts_of_list rest) := by
          rw [List.append_assoc]
      _ = acc ++ texts_of_list (c :: rest) := by rw [texts_of_list]

end

mutual

theorem mem_extract_fonts : ∀ (n : Node) (S : Finset String) (f : String),
    f ∈ extract_fonts n S ↔ f ∈ S ∨ has_font n f = true
  | .mk t st ch nm cs, S, f => by
    have hcs := mem_extract_fonts_list cs S f
    by_cases hT : t = some "TEXT"
    · subst hT
      rcases st with _ | st2
      · simp [extract_fonts, has_font, hcs]
      · rcases st2 with _ | g
        · simp [extract_fonts, has_font, hcs]
        · by_cases hg : g = ""
          · subst hg
            simp [extract_fonts, has_font, hcs]
          · have hval : extract_fonts (Node.mk (some "TEXT") (some (some g)) ch nm cs) S =
                insert g (extract_fonts_list cs S) := by
              simp [extract_fonts, hg]
            have hhf : (has_font (Node.mk (some "TEXT") (some (some g)) ch nm cs) f = true) ↔
                (has_font_list cs f = true ∨ g = f) := by
              simp [has_font, hg]
            rw [hval, Finset.mem_insert, hcs, hhf]
            constructor
            · rintro (rfl | h | h)
              · exact Or.inr (Or.inr rfl)
              · exact Or.inl h
              · exact Or.inr (Or.inl h)
            · rintro (h | h | rfl)
              · exact Or.inr (Or.inl h)
              · exact Or.inr (Or.inr h)
              · exact Or.inl rfl
    · simp [extract_fonts, has_font, hT, hcs]

theorem mem_extract_fonts_list : ∀ (cs : List Node) (S : Finset String) (f : String),
    f ∈ extract_fonts_list cs S ↔ f ∈ S ∨ has_font_list cs f = true
  | [], S, f => by simp [extract_fonts_list, has_font_list]
  | c :: rest, S, f => by
    have h1 := mem_extract_fonts c S f
    have h2 := mem_extract_fonts_list rest (extract_fonts c S) f
    simp [extract_fonts_list, has_font_list, h2, h1]
    tauto

end

mutual

theorem texts_of_eq_nil_of_no_text : ∀ n : Node,
    has_text_node n = false → texts_of n = []
  | .mk t st ch nm cs, h => by
    simp only [has_text_node, Bool.or_eq_false_iff, beq_eq_false_iff_ne,
      ne_eq] at h
    simp [texts_of, h.1, texts_of_list_eq_nil_of_no_text cs h.2]

theorem texts_of_list_eq_nil_of_no_text : ∀ cs : List Node,
    has_text_node_list cs = false → texts_of_list cs = []
  | [], _ => rfl
  | c :: rest, h => by
    simp only [has_text_node_list, Bool.or_eq_false_iff] at h
    simp [texts_of_list, texts_of_eq_nil_of_no_text c h.1,
      texts_of_list_eq_nil_of_no_text rest h.2]

end

mutual

theorem has_font_eq_false_of_no_text : ∀ (n : Node) (f : String),
    has_text_node n = false → has_font n f = false
  | .mk t st ch nm cs, f, h => by
    simp only [has_text_node, Bool.or_eq_false_iff, beq_eq_false_iff_ne,
      ne_eq] at h
    simp [has_font, h.1, has_font_list_eq_false_of_no_text cs f h.2]

theorem has_font_list_eq_false_of_no_text : ∀ (cs : List Node) (f : String),
    has_text_node_list cs = false → has_font_list cs f = false
  | [], _, _ => rfl
  | c :: rest, f, h => by
    simp only [has_text_node_list, Bool.or_eq_false_iff] at h
    simp [has_font_list, has_font_eq_false_of_no_text c f h.1,
      has_font_list_eq_false_of_no_text rest f h.2]

end

/-! ## Claim C5 -/

/-- Counterexample for C5 as stated: `extract_texts` appends the
`characters` value of a TEXT node even when it is the empty string (the code
tests only `'characters' in node`, not non-emptiness), so a TEXT node with
empty `characters` makes the text sequence non-empty where the claim
predicts an empty one. -/
theorem C5_counterexample :
    extract_texts (Node.mk (some "TEXT") none (some "") none []) [] ≠ [] := by
  decide

/-- Claim C5 (corrected): a font family belongs to `extract_fonts` iff some
node has type `TEXT` and carries a style whose `fontFamily` is that
non-empty family; `extract_texts` collects, in post-order, the `characters`
of every TEXT node that carries the `characters` field — even when its value
is the empty string (this is where the original claim fails); a tree with
zero TEXT nodes yields an empty font set and an empty text sequence; a TEXT
node lacking the `characters` field contributes nothing to the text
sequence, and a bare TEXT node without a style contributes nothing to the
font set. -/
theorem C5_extract_characterisation :
    (∀ (n : Node) (f : String),
      f ∈ extract_fonts n ∅ ↔ has_font n f = true) ∧
    (∀ n : Node, extract_texts n [] = texts_of n) ∧
    (∀ n : Node, has_text_node n = false →
      extract_fonts n ∅ = ∅ ∧ extract_texts n [] = []) ∧
    (∀ (t : Option String) (st : Option (Option String)) (nm : Option String)
      (cs : List Node) (acc : List String),
      extract_texts (Node.mk t st none nm cs) acc = extract_texts_list cs acc) ∧
    (∀ (nm : Option String) (f : String),
      f ∉ extract_fonts (Node.mk (some "TEXT") none none nm []) ∅) := by
  refine ⟨fun n f => ?_, fun n => ?_, fun n h => ⟨?_, ?_⟩, ?_, ?_⟩
  · rw [mem_extract_fonts n ∅ f]
    simp
  · simpa using extract_texts_eq_acc n []
  · ext f
    rw [mem_extract_fonts n ∅ f]
    simp [has_font_eq_false_of_no_text n f h]
  · rw [extract_texts_eq_acc n []]
    simp [texts_of_eq_nil_of_no_text n h]
  · intro t st nm cs acc
    by_cases hT : t = some "TEXT" <;> simp [extract_texts, hT]
  · intro nm f
    rw [mem_extract_fonts _ ∅ f]
    simp [has_font, has_font_list]

/-- Witness for C5: a single non-TEXT node has no text node, an empty font
set and an empty text sequence. -/
theorem C5_witness :
    has_text_node (Node.mk (some "FRAME") none none none []) = false ∧
    extract_fonts (Node.mk (some "FRAME") none none none []) ∅ = ∅ ∧
    extract_texts (Node.mk (some "FRAME") none none none []) [] = [] := by
  have h := C5_extract_characterisation.2.2.1
    (Node.mk (some "FRAME") none none none []) (by decide)
  exact ⟨by decide, h.1, h.2⟩

/-! ## Claim C10 -/

/-- Claim C10 (confirmed): `extract_texts` traverses in post-order — the
value produced for a node is the accumulator, followed by the texts
collected from its children in order, followed by the node's own
`characters` contribution; in particular the node's own characters appear
after those of all of its descendants. -/
theorem C10_extract_texts_postorder :
    ∀ (t : Option String) (st : Option (Option String)) (ch : Option String)
      (nm : Option String) (cs : List Node) (acc : List String),
      extract_texts (Node.mk t st ch nm cs) acc =
        acc ++ (cs.map fun c => extract_texts c []).flatten ++
          (if t = some "TEXT" then
            match ch with
            | some s => [s]
            | none => []
          else []) := by
  intro t st ch nm cs acc
  have h2 : texts_of_list cs = (cs.map fun c => extract_texts c []).flatten := by
    induction cs with
    | nil => simp [texts_of_list]
    | cons c rest ih =>
      simp [texts_of_list, ih, extract_texts_eq_acc c []]
  rw [extract_texts_eq_acc (Node.mk t st ch nm cs) acc]
  simp [texts_of, h2, List.append_assoc]

/-! ## Claim C9 -/

mutual

theorem extract_fonts_st_eq : ∀ (n : Node) (S : Finset String),
    extract_fonts_st n S = (extract_fonts n S, n)
  | .mk t st ch nm cs, S => by
    have h := extract_fonts_list_st_eq cs S
    simp [extract_fonts_st, extract_fonts, h]

theorem extract_fonts_list_st_eq : ∀ (cs : List Node) (S : Finset String),
    extract_fonts_list_st cs S = (extract_fonts_list cs S, cs)
  | [], S => rfl
  | c :: rest, S => by
    have h1 := extract_fonts_st_eq c S
    have h2 := extract_fonts_list_st_eq rest (extract_fonts c S)
    simp [extract_fonts_list_st, extract_fonts_list, h1, h2]

end

mutual

theorem extract_texts_st_eq : ∀ (n : Node) (ts : List String),
    extract_texts_st n ts = (extract_texts n ts, n)
  | .mk t st ch nm cs, ts => by
    have h := extract_texts_list_st_eq cs ts
    simp [extract_texts_st, extract_texts, h]

theorem extract_texts_list_st_eq : ∀ (cs : List Node) (ts : List String),
    extract_texts_list_st cs ts = (extract_texts_list cs ts, cs)
  | [], ts => rfl
  | c :: rest, ts => by
    have h1 := extract_texts_st_eq c ts
    have h2 := extract_texts_list_st_eq rest (extract_texts c ts)
    simp [extract_texts_list_st, extract_texts_list, h1, h2]

end

mutual

theorem get_project_structure_st_snd : ∀ (n : Node) (level : Nat),
    (get_project_structure_st n level).2 = n
  | .mk t st ch nm cs, level => by
    have h := get_project_structure_list_st_snd cs (level + 1)
    rcases nm with _ | nameVal
    · simp [get_project_structure_st]
    · rcases t with _ | typeVal
      · simp [get_project_structure_st]
      · rcases hr : get_project_structure_list_st cs (level + 1) with ⟨res, cs1⟩
        have hcs1 : cs1 = cs := by rw [hr] at h; exact h
        rcases res with e | s <;> simp [get_project_structure_st, hr, hcs1]

theorem get_project_structure_list_st_snd : ∀ (cs : List Node) (level : Nat),
    (get_project_structure_list_st cs level).2 = cs
  | [], _ => rfl
  | c :: rest, level => by
    have h1 := get_project_structure_st_snd c level
    have h2 := get_project_structure_list_st_snd rest level
    rcases hc : get_project_structure_st c level with ⟨res, c1⟩
    have hc1 : c1 = c := by rw [hc] at h1; exact h1
    rcases res with e | s
    · simp [get_project_structure_list_st, hc, hc1]
    · rcases hrest : get_project_structure_list_st rest level with ⟨res2, rest1⟩
      have hrest1 : rest1 = rest := by rw [hrest] at h2; exact h2
      rcases res2 with e2 | s2 <;>
        simp [get_project_structure_list_st, hc, hrest, hc1, hrest1]

end

/-- Claim C9 (confirmed): the extraction traversals only read the node.  The
state-threaded embeddings return the node exactly as the traversal rebuilds
it from its reads, and that node equals the input for every tree — for
`extract_fonts` and `extract_texts` together with agreement of the computed
result with the plain embeddings, and for `get_project_structure` on both
its success and `KeyError` paths. -/
theorem C9_extractors_read_only :
    (∀ (n : Node) (fonts : Finset String),
      extract_fonts_st n fonts = (extract_fonts n fonts, n)) ∧
    (∀ (n : Node) (texts : List String),
      extract_texts_st n texts = (extract_texts n texts, n)) ∧
    (∀ (n : Node) (level : Nat), (get_project_structure_st n level).2 = n) :=
  ⟨fun n S => extract_fonts_st_eq n S, fun n ts => extract_texts_st_eq n ts,
   fun n level => get_project_structure_st_snd n level⟩

/-! ## Claim C2 -/

/-- Counterexample for C2 as stated: when the language-model path falls
through because the response parsed to a JSON list of fewer than 3 items,
the code keeps the parsed items in `components` and the fallback appends
extend them, so the result is not the deterministic fallback list the claim
describes (here it is `["X", "Dashboard User", "Home Interface",
"Settings Interface"]`). -/
theorem C2_counterexample :
    extract_components_from_figma (.parsed (.pylist ["X"]))
        ⟨"Proj", some [⟨"Home", some "CANVAS"⟩, ⟨"Settings", some "CANVAS"⟩]⟩
        ⟨"Dashboard", [], [], none, []⟩ ≠
      .ok ["Dashboard User", "Home Interface", "Settings Interface"] := by
  decide

/-- Claim C2 (corrected): when the language-model path is unavailable, or
its call raised, or the JSON parse failed, the deriver returns exactly the
deterministic fallback list — `"{app_type} User"`, then the non-blank names
among the first two pages as `"{page} Interface"`, then
`"{frontend[0]} Layer"`, `"{backend[0]} API"`, the non-blank database name
verbatim, and `"{features[0]} Module"`, truncated to 6, with the empty list
replaced by `["{project} System"]` or `["Application"]`.  But when the
response parses to a list of fewer than 3 items, those parsed items are kept
and the fallback entries are appended after them (then truncated to 6).
The Dashboard/Home/Settings instance returns exactly
`["Dashboard User", "Home Interface", "Settings Interface"]`. -/
theorem C2_fallback_characterisation :
    ∀ (figma : FigmaData) (ai : AIAnalysis) (llm : LLMOutcome)
      (pages parts : List String),
      pages = (match figma.document_children with
               | some children => pages_of children
               | none => []) →
      parts = (if ai.application_type ≠ "" then [ai.application_type ++ " User"] else []) ++
          (((pages.take 2).filter fun page => pyStripTruthy page).map
            fun page => page ++ " Interface") ++
          (match ai.frontend with
           | [] => []
           | f :: _ => [f ++ " Layer"]) ++
          (match ai.backend with
           | [] => []
           | b :: _ => [b ++ " API"]) ++
          (match ai.database with
           | some db => if pyStripTruthy db then [db] else []
           | none => []) ++
          (match ai.key_features with
           | [] => []
           | f :: _ => if pyStripTruthy f then [f ++ " Module"] else []) →
      ((llm = .unavailable ∨ llm = .raised ∨ llm = .parseFailed) →
        extract_components_from_figma llm figma ai =
          .ok ((if parts = [] then
                 (if figma.name ≠ "" then [figma.name ++ " System"]
                  else ["Application"])
               else parts).take 6)) ∧
      (∀ items, llm = .parsed (.pylist items) → items.length < 3 →
        extract_components_from_figma llm figma ai =
          .ok ((if items ++ parts = [] then
                 (if figma.name ≠ "" then [figma.name ++ " System"]
                  else ["Application"])
               else items ++ parts).take 6)) ∧
      extract_components_from_figma .unavailable
          ⟨"Proj", some [⟨"Home", some "CANVAS"⟩, ⟨"Settings", some "CANVAS"⟩]⟩
          ⟨"Dashboard", [], [], none, []⟩ =
        .ok ["Dashboard User", "Home Interface", "Settings Interface"] := by
  intro figma ai llm pages parts hpages hparts
  subst hpages
  subst hparts
  refine ⟨?_, ?_, by decide⟩
  · rintro (rfl | rfl | rfl) <;>
      simp [extract_components_from_figma, fallback_components,
        finish_components]
  · rintro items rfl hlt
    rw [extract_components_from_figma]
    rw [if_neg (by omega)]
    simp [fallback_components, finish_components]

/-- Witness for C2: the fallback branch applied with the language model
unavailable on the Dashboard/Home/Settings facts. -/
theorem C2_witness :
    extract_components_from_figma .unavailable
        ⟨"Proj", some [⟨"Home", some "CANVAS"⟩, ⟨"Settings", some "CANVAS"⟩]⟩
        ⟨"Dashboard", [], [], none, []⟩ =
      .ok ["Dashboard User", "Home Interface", "Settings Interface"] := by
  have h := (C2_fallback_characterisation
    ⟨"Proj", some [⟨"Home", some "CANVAS"⟩, ⟨"Settings", some "CANVAS"⟩]⟩
    ⟨"Dashboard", [], [], none, []⟩ .unavailable
    ["Home", "Settings"]
    ["Dashboard User", "Home Interface", "Settings Interface"]
    (by decide) (by decide)).1 (Or.inl rfl)
  exact h.trans (by decide)

/-! ## Claim C4 -/

/-- Claim C4 (code bug): the claim — matching the evident intent of the
bare `except: pass` around the JSON parse and the catch-all
`except Exception` around the LLM call — says a malformed response never
propagates an error.  But when the response parses to a non-list JSON value
(e.g. the object `{"a": 1}`), line 108 rebinds `components` to it, and the
first fallback append (here `components.append("Dashboard User")`) raises an
uncaught `AttributeError`; with no fallback facts at all, a truthy non-list
value instead reaches `components[:6]` and raises `TypeError`. -/
theorem C4_nonlist_parse_propagates :
    extract_components_from_figma (.parsed (.pydict true)) ⟨"", none⟩
        ⟨"Dashboard", [], [], none, []⟩ =
      .error "AttributeError: dict object has no attribute append" ∧
    extract_components_from_figma (.parsed (.pydict true)) ⟨"", none⟩
        ⟨"", [], [], none, []⟩ =
      .error "TypeError: unhashable type: slice" := by
  exact ⟨by decide, by decide⟩

/-! ## Claim C1 -/

theorem le_foldl_max (xs : List Nat) (a : Nat) : a ≤ xs.foldl max a := by
  induction xs generalizing a with
  | nil => exact le_refl a
  | cons x xs ih => exact le_trans (le_max_left a x) (ih (max a x))

theorem mem_le_foldl_max (xs : List Nat) (a x : Nat) (hx : x ∈ xs) :
    x ≤ xs.foldl max a := by
  induction xs generalizing a with
  | nil => cases hx
  | cons y ys ih =>
    rcases List.mem_cons.mp hx with rfl | h
    · exact le_trans (le_max_right a x) (le_foldl_max ys (max a x))
    · exact ih (max a y) h

theorem label_le_box_diagram_width (c : List Char) (cs : List (List Char)) :
    ∀ lab ∈ c :: cs, lab.length + 4 ≤ box_diagram_width c cs := by
  intro lab hlab
  unfold box_diagram_width
  rcases List.mem_cons.mp hlab with rfl | h
  · exact le_trans (le_foldl_max _ _) (le_max_left _ _)
  · exact le_trans
      (mem_le_foldl_max _ _ _
        (List.mem_map_of_mem (fun comp => comp.length + 4) h))
      (le_max_left _ _)

theorem box_diagram_width_eq (c : List Char) (cs : List (List Char)) :
    box_diagram_width c cs =
      max 20 (((c :: cs).map fun lab => lab.length + 4).foldl max 0) := by
  unfold box_diagram_width
  rw [List.map_cons, List.foldl_cons, Nat.zero_max]
  exact max_comm _ _

theorem enum_flatMap_eq_rows (W : Nat) :
    ∀ (l : List (List Char)) (k n : Nat), n = k + l.length →
      ((List.enumFrom k l).flatMap fun p =>
          create_ascii_box p.2 (some (W : Int)) ++
            (if p.1 < n - 1 then create_vertical_arrow W else [])) =
        diagram_rows W l
  | [], k, n, hn => by simp [diagram_rows]
  | [c], k, n, hn => by
    subst hn
    simp [List.enumFrom, diagram_rows, Nat.lt_irrefl]
  | c :: c2 :: cs, k, n, hn => by
    have ih := enum_flatMap_eq_rows W (c2 :: cs) (k + 1) n
      (by simp at hn ⊢; omega)
    have hcond : k < n - 1 := by simp at hn; omega
    simp only [List.enumFrom, List.flatMap_cons]
    rw [diagram_rows, ← ih]
    simp [hcond, List.append_assoc]

theorem create_box_diagram_lines_eq (c : List Char) (cs : List (List Char)) :
    create_box_diagram_lines (c :: cs) =
      some (diagram_rows (box_diagram_width c cs) (c :: cs)) := by
  simp only [create_box_diagram_lines]
  congr 1
  exact enum_flatMap_eq_rows (box_diagram_width c cs) (c :: cs) 0
    ((c :: cs).length) (by simp)

theorem diagram_rows_length (W : Nat) :
    ∀ l : List (List Char), l ≠ [] →
      (diagram_rows W l).length = 5 * l.length - 2
  | [], h => absurd rfl h
  | [c], _ => by simp [diagram_rows, create_ascii_box]
  | c :: c2 :: cs, _ => by
    have ih := diagram_rows_length W (c2 :: cs) (by simp)
    simp only [diagram_rows, List.length_append, ih, create_ascii_box,
      create_vertical_arrow, List.length_cons] at *
    simp
    omega

theorem box_map_length (c : List Char) (W : Nat) (hc : c.length + 4 ≤ W) :
    (create_ascii_box c (some (W : Int))).map List.length = [W, W, W] := by
  have hw : eff_width c (some (W : Int)) = W := eff_width_of_le hc
  simp only [create_ascii_box, List.map_cons, List.map_nil, List.length_cons,
    List.length_append, List.length_replicate, List.length_nil, hw,
    List.cons.injEq, and_true]
  omega

theorem arrow_map_length (W : Nat) :
    (create_vertical_arrow W).map List.length =
      [(W - 1) / 2 + 1, (W - 1) / 2 + 1] := by
  simp [create_vertical_arrow, List.length_append]

theorem diagram_rows_map_length (W : Nat) :
    ∀ l : List (List Char), (∀ lab ∈ l, lab.length + 4 ≤ W) →
      (diagram_rows W l).map List.length = len_pattern W l
  | [], _ => rfl
  | [c], h => by
    rw [diagram_rows, len_pattern]
    exact box_map_length c W (h c (by simp))
  | c :: c2 :: cs, h => by
    have ih := diagram_rows_map_length W (c2 :: cs)
      (fun lab hl => h lab (by simp [hl]))
    have hc : c.length + 4 ≤ W := h c (by simp)
    rw [diagram_rows, len_pattern]
    simp only [List.map_append, box_map_length c W hc, arrow_map_length, ih]
    rfl

theorem len_pattern_length_pos (W : Nat) :
    ∀ l : List (List Char), l ≠ [] → 0 < (len_pattern W l).length
  | [], h => absurd rfl h
  | [_], _ => by simp [len_pattern]
  | _ :: c2 :: cs, _ => by simp [len_pattern]

theorem len_pattern_get (W : Nat) :
    ∀ (l : List (List Char)) (i : Nat) (h : i < (len_pattern W l).length),
      (len_pattern W l).get ⟨i, h⟩ =
        if i % 5 < 3 then W else (W - 1) / 2 + 1
  | [], i, h => by simp [len_pattern] at h
  | [c], i, h => by
    simp only [len_pattern, List.length_cons, List.length_nil] at h
    interval_cases i <;> simp [len_pattern, List.get]
  | c :: c2 :: cs, i, h => by
    match i, h with
    | 0, h => simp [len_pattern, List.get]
    | 1, h => simp [len_pattern, List.get]
    | 2, h => simp [len_pattern, List.get]
    | 3, h => simp [len_pattern, List.get]
    | 4, h => simp [len_pattern, List.get]
    | j + 5, h =>
      have h' : j < (len_pattern W (c2 :: cs)).length := by
        simp only [len_pattern, List.length_cons] at h
        omega
      have ih := len_pattern_get W (c2 :: cs) j h'
      have hstep : (len_pattern W (c :: c2 :: cs)).get ⟨j + 5, h⟩ =
          (len_pattern W (c2 :: cs)).get ⟨j, h'⟩ := by
        simp [len_pattern, List.get]
      rw [hstep, ih, Nat.add_mod_right]

theorem box_no_newline (c : List Char) (w? : Option Int) (hc : nlChar ∉ c) :
    ∀ l ∈ create_ascii_box c w?, nlChar ∉ l := by
  intro l hl
  simp only [create_ascii_box, List.mem_cons, List.not_mem_nil, or_false] at hl
  rcases hl with rfl | rfl | rfl <;>
    · intro hmem
      simp only [List.mem_cons, List.mem_append, List.mem_replicate,
        List.not_mem_nil, or_false] at hmem
      have h5 : nlChar = '+' ∨ nlChar = '-' ∨ nlChar = '|' ∨ nlChar = ' ' ∨
          nlChar ∈ c := by tauto
      rcases h5 with h | h | h | h | h
      · exact absurd h (by decide)
      · exact absurd h (by decide)
      · exact absurd h (by decide)
      · exact absurd h (by decide)
      · exact hc h

theorem arrow_no_newline (W : Nat) :
    ∀ l ∈ create_vertical_arrow W, nlChar ∉ l := by
  intro l hl
  simp only [create_vertical_arrow, List.mem_cons, List.not_mem_nil,
    or_false] at hl
  rcases hl with rfl | rfl <;>
    · intro hmem
      simp only [List.mem_append, List.mem_replicate, List.mem_cons,
        List.not_mem_nil, or_false] at hmem
      have h3 : nlChar = ' ' ∨ nlChar = '|' ∨ nlChar = 'v' := by tauto
      rcases h3 with h | h | h
      · exact absurd h (by decide)
      · exact absurd h (by decide)
      · exact absurd h (by decide)

theorem rows_no_newline (W : Nat) :
    ∀ l : List (List Char), (∀ lab ∈ l, nlChar ∉ lab) →
      ∀ r ∈ diagram_rows W l, nlChar ∉ r
  | [], _, r, hr => by simp [diagram_rows] at hr
  | [c], h, r, hr => by
    rw [diagram_rows] at hr
    exact box_no_newline c _ (h c (by simp)) r hr
  | c :: c2 :: cs, h, r, hr => by
    rw [diagram_rows] at hr
    simp only [List.mem_append] at hr
    rcases hr with (hr | hr) | hr
    · exact box_no_newline c _ (h c (by simp)) r hr
    · exact arrow_no_newline W r hr
    · exact rows_no_newline W (c2 :: cs)
        (fun lab hl => h lab (by simp [hl])) r hr

/-- Counterexample for C1 as stated: for `labels = ["A", "B"]` the uniform
width is 20 and the claim predicts all lines of length 20, but the two arrow
lines produced between the boxes have length `(20 - 1) / 2 + 1 = 10` — the
arrow lines are not padded to the uniform width. -/
theorem C1_counterexample :
    ¬ (∀ l ∈ ((create_box_diagram [['A'], ['B']]).getD []).splitOn nlChar,
        l.length = 20) := by
  decide

/-- Claim C1 (corrected): for every non-empty list of at most 6 newline-free
labels, the diagram string split on newlines has exactly
`3*n + 2*(n-1)` lines; the uniform width is
`max(20, max over labels of (label length + 4))`; each of the three box
lines per label has exactly that width, but each of the two arrow lines
between consecutive boxes has length `(width - 1) / 2 + 1` instead (the
lines at positions `i` with `i % 5 < 3` are box lines, the others arrow
lines). -/
theorem C1_box_diagram_amended :
    ∀ (c : List Char) (cs : List (List Char)),
      (c :: cs).length ≤ 6 →
      (∀ lab ∈ c :: cs, nlChar ∉ lab) →
      ∃ s, create_box_diagram (c :: cs) = some s ∧
        (s.splitOn nlChar).length =
          3 * (c :: cs).length + 2 * ((c :: cs).length - 1) ∧
        box_diagram_width c cs =
          max 20 (((c :: cs).map fun lab => lab.length + 4).foldl max 0) ∧
        (∀ i, (h : i < (s.splitOn nlChar).length) →
          ((s.splitOn nlChar).get ⟨i, h⟩).length =
            if i % 5 < 3 then box_diagram_width c cs
            else (box_diagram_width c cs - 1) / 2 + 1) := by
  intro c cs hlen hnl
  have hrows := create_box_diagram_lines_eq c cs
  have hcount := diagram_rows_length (box_diagram_width c cs) (c :: cs)
    (by simp)
  have hne : diagram_rows (box_diagram_width c cs) (c :: cs) ≠ [] := by
    intro hnil
    rw [hnil] at hcount
    simp at hcount
    omega
  have hsplit : (([nlChar].intercalate
        (diagram_rows (box_diagram_width c cs) (c :: cs))).splitOn nlChar) =
      diagram_rows (box_diagram_width c cs) (c :: cs) :=
    List.splitOn_intercalate _ nlChar
      (fun l hl => rows_no_newline (box_diagram_width c cs) (c :: cs) hnl l hl)
      hne
  refine ⟨[nlChar].intercalate (diagram_rows (box_diagram_width c cs) (c :: cs)),
    ?_, ?_, box_diagram_width_eq c cs, ?_⟩
  · rw [create_box_diagram, hrows]
    rfl
  · rw [hsplit, hcount]
    simp only [List.length_cons]
    omega
  · intro i h
    have h' : i < (diagram_rows (box_diagram_width c cs) (c :: cs)).length := by
      rw [hsplit] at h
      exact h
    have hmap := diagram_rows_map_length (box_diagram_width c cs) (c :: cs)
      (label_le_box_diagram_width c cs)
    have h'' : i < (len_pattern (box_diagram_width c cs) (c :: cs)).length := by
      rw [← hmap, List.length_map]
      exact h'
    have hlp := len_pattern_get (box_diagram_width c cs) (c :: cs) i h''
    have hq : (([nlChar].intercalate
          (diagram_rows (box_diagram_width c cs) (c :: cs))).splitOn nlChar).get
            ⟨i, h⟩ =
        (diagram_rows (box_diagram_width c cs) (c :: cs)).get ⟨i, h'⟩ := by
      have e1 : (([nlChar].intercalate
            (diagram_rows (box_diagram_width c cs) (c :: cs))).splitOn nlChar)[i]? =
          (diagram_rows (box_diagram_width c cs) (c :: cs))[i]? := by
        rw [hsplit]
      rw [List.getElem?_eq_getElem h, List.getElem?_eq_getElem h'] at e1
      simpa only [List.get_eq_getElem] using Option.some.inj e1
    have hgl : ((diagram_rows (box_diagram_width c cs) (c :: cs)).get
        ⟨i, h'⟩).length =
        (len_pattern (box_diagram_width c cs) (c :: cs)).get ⟨i, h''⟩ := by
      have hi2 : i < ((diagram_rows (box_diagram_width c cs)
          (c :: cs)).map List.length).length := by
        rw [List.length_map]
        exact h'
      have e2 : ((diagram_rows (box_diagram_width c cs)
            (c :: cs)).map List.length)[i]? =
          (len_pattern (box_diagram_width c cs) (c :: cs))[i]? := by
        rw [hmap]
      rw [List.getElem?_eq_getElem hi2, List.getElem?_eq_getElem h''] at e2
      have e3 := Option.some.inj e2
      simpa only [List.get_eq_getElem, List.getElem_map] using e3
    rw [hq, hgl, hlp]

/-- Witness for C1: at `labels = ["A", "B"]` the split has 8 lines, line 0
(a box line) has length 20, and line 3 (an arrow line) has length 10. -/
theorem C1_witness :
    (((create_box_diagram [['A'], ['B']]).getD []).splitOn nlChar).length = 8 := by
  obtain ⟨s, h1, h2, h3, h4⟩ :=
    C1_box_diagram_amended ['A'] [['B']] (by decide) (by decide)
  rw [h1]
  simpa using h2

end SystemArch
